import Mathlib

/-!
Verification of `tee_secure_process` (src/lib/tee_secure.c).

The C source is:

```c
char* tee_secure_process(const char* input) {
    size_t len = strlen(input);
    char* result = (char*)malloc(len + 1);
    for (size_t i = 0; i < len; i++) {
        result[i] = input[len - 1 - i];
    }
    result[len] = '\x7b0\x7d';
    return result;
}
```

Shallow embedding: a C string is a finite buffer of 8-bit code units,
modelled as `List Nat` with `0` as the NUL terminator.  `strlen` is the
length of the prefix before the first `0`.  `malloc (len + 1)` is modelled
by an `Option (List Nat)` argument: `some fresh` is a freshly allocated
buffer with arbitrary (uninitialized) contents `fresh` of length
`len + 1`, `none` is allocation failure.  The source performs no NULL
check on the result of `malloc`: on allocation failure the very next
operations (`result[i] = ...` at line 8, or `result[len] = 0` at line 10)
store through the null pointer, which we record as the distinguished
outcome `CResult.nullDeref`.  The copy loop is embedded as a fold over
`List.range len` acting on an explicit state that carries both buffers,
so that non-mutation of the input is a provable property of the embedding
rather than an assumption.
-/

namespace TeeSecure

/-- `strlen` from `<string.h>` applied to the buffer `buf`: the number of
code units preceding the first NUL byte (line 5 of the source).  On a
valid C string (one that contains a `0`) this is the payload length. -/
def strlen (buf : List Nat) : Nat :=
  (buf.takeWhile (fun b => b != 0)).length

/-- The logical payload of a buffer: the code units preceding the first
NUL byte. -/
def payload (buf : List Nat) : List Nat :=
  buf.takeWhile (fun b => b != 0)

/-- The memory visible to the copy loop of lines 7-9: the read-only input
buffer, the freshly allocated result buffer, and a counter of completed
loop iterations (for the resource-bound claim). -/
structure Mem where
  input : List Nat
  result : List Nat
  iters : Nat

/-- One iteration of the loop body `result[i] = input[len - 1 - i]`
(line 8 of the source).  Only `result` is written; `input` is only read. -/
def copyIter (len : Nat) (m : Mem) (i : Nat) : Mem :=
  { m with
    result := m.result.set i (m.input.getD (len - 1 - i) 0)
    iters := m.iters + 1 }

/-- The loop `for (i = 0; i < len; i++)` of lines 7-9, as a fold of the
body over the index sequence `0, 1, ..., len - 1`. -/
def copyLoop (len : Nat) (m : Mem) : Mem :=
  (List.range len).foldl (copyIter len) m

/-- Outcome of a call to `tee_secure_process`.
`ok buffer inputAfter` is a normal return: `buffer` is the heap buffer
whose address is returned, and `inputAfter` is the contents of the input
buffer after the call (so that non-mutation of the input is statable).
`nullDeref inputAfter` records that the call stored through the null
pointer returned by a failed `malloc` (the source checks `malloc`'s
result nowhere): undefined behavior, no value is returned to the
caller. -/
inductive CResult where
  | ok (buffer : List Nat) (inputAfter : List Nat)
  | nullDeref (inputAfter : List Nat)
deriving DecidableEq, Repr

/-- The returned buffer of a normal return (`[]` when the call had no
normal return). -/
def CResult.out : CResult → List Nat
  | .ok buffer _ => buffer
  | .nullDeref _ => []

/-- The contents of the input buffer after the call. -/
def CResult.inputAfter : CResult → List Nat
  | .ok _ s => s
  | .nullDeref s => s

/-- `tee_secure_process` (lines 4-12 of the source).  `alloc` is the
outcome of `malloc (len + 1)`: `some fresh` a fresh buffer of
uninitialized contents `fresh`, `none` allocation failure.  On `some`,
the copy loop of lines 7-9 runs, line 10 stores the terminator at index
`len`, and line 11 returns the buffer.  On `none`, the source proceeds
(without any check) to store through the null pointer. -/
def tee_secure_process (alloc : Option (List Nat)) (input : List Nat) : CResult :=
  let len := strlen input
  match alloc with
  | some fresh =>
      let m := copyLoop len { input := input, result := fresh, iters := 0 }
      CResult.ok (m.result.set len 0) m.input
  | none => CResult.nullDeref input

/-! ### Properties of the copy loop -/

/-- The loop body never writes the input buffer. -/
theorem foldl_copyIter_input (len : Nat) (l : List Nat) (m : Mem) :
    (l.foldl (copyIter len) m).input = m.input := by
  induction l generalizing m with
  | nil => rfl
  | cons a l ih => simpa [copyIter] using ih (copyIter len m a)

/-- The loop performs one iteration per index. -/
theorem foldl_copyIter_iters (len : Nat) (l : List Nat) (m : Mem) :
    (l.foldl (copyIter len) m).iters = m.iters + l.length := by
  induction l generalizing m with
  | nil => rfl
  | cons a l ih =>
      rw [List.foldl_cons, ih (copyIter len m a)]
      simp only [copyIter, List.length_cons]
      omega

/-- After the first `k` iterations of the copy loop, position `i < k` of
the result buffer holds `input[len - 1 - i]` and the rest of the buffer
is untouched. -/
theorem foldl_copyIter_result (len : Nat) (input buf : List Nat) (c : Nat) :
    ∀ k : Nat, k ≤ buf.length →
      ((List.range k).foldl (copyIter len) ⟨input, buf, c⟩).result
        = (List.range k).map (fun i => input.getD (len - 1 - i) 0) ++ buf.drop k := by
  intro k
  induction k with
  | zero => simp
  | succ k ih =>
      intro hk
      have hk' : k ≤ buf.length := Nat.le_of_succ_le hk
      have hklt : k < buf.length := hk
      rw [List.range_succ, List.foldl_append, List.map_append]
      have hinput :
          ((List.range k).foldl (copyIter len) ⟨input, buf, c⟩).input = input :=
        foldl_copyIter_input len _ _
      set prev := (List.range k).foldl (copyIter len) ⟨input, buf, c⟩ with hprev
      have hres : prev.result
          = (List.range k).map (fun i => input.getD (len - 1 - i) 0) ++ buf.drop k :=
        ih hk'
      simp only [List.foldl_cons, List.foldl_nil, copyIter, hinput, hres]
      have hlenmap : ((List.range k).map (fun i => input.getD (len - 1 - i) 0)).length = k := by
        simp
      rw [List.set_append]
      rw [hlenmap]
      simp only [lt_irrefl, if_false, Nat.sub_self]
      rw [List.drop_eq_getElem_cons hklt, List.set_cons_zero]
      simp

/-- Rewriting the index of a list access along an equality of indices. -/
theorem getElem_index_congr {l : List Nat} {i j : Nat} (h : i = j)
    (hi : i < l.length) (hj : j < l.length) :
    l[i] = l[j] := by
  subst h; rfl

/-- The prefix of `input` before the first NUL, read in reverse order by
the loop, is exactly `(payload input).reverse`. -/
theorem map_range_eq_reverse_payload (input : List Nat) :
    (List.range (strlen input)).map (fun i => input.getD (strlen input - 1 - i) 0)
      = (payload input).reverse := by
  have hpref : payload input <+: input := List.takeWhile_prefix _
  have hlen : (payload input).length = strlen input := rfl
  apply List.ext_getElem
  · simp [hlen]
  · intro n h₁ h₂
    have hn : n < strlen input := by simpa using h₁
    have hidx : strlen input - 1 - n < (payload input).length := by
      rw [hlen]; omega
    have hidx' : strlen input - 1 - n < input.length :=
      lt_of_lt_of_le hidx hpref.length_le
    have hp : n < (payload input).length := by simpa using h₂
    have hidx₂ : (payload input).length - 1 - n < (payload input).length := by omega
    have hix : (payload input).length - 1 - n = strlen input - 1 - n := by rw [hlen]
    rw [List.getElem_map, List.getElem_range, List.getElem_reverse,
      List.getD_eq_getElem input 0 hidx']
    exact (hpref.getElem hidx).symm.trans (getElem_index_congr hix hidx₂ hidx).symm

/-- Characterization of a successful call: when `malloc` returns a fresh
buffer of the requested `len + 1` bytes, the call returns the reversed
payload followed by a NUL terminator, and the input buffer is unchanged,
regardless of the uninitialized contents of the fresh buffer. -/
theorem process_ok (input fresh : List Nat)
    (hbuf : fresh.length = strlen input + 1) :
    tee_secure_process (some fresh) input
      = CResult.ok ((payload input).reverse ++ [0]) input := by
  unfold tee_secure_process copyLoop
  have hle : strlen input ≤ fresh.length := by omega
  have hres := foldl_copyIter_result (strlen input) input fresh 0 (strlen input) hle
  have hinput := foldl_copyIter_input (strlen input) (List.range (strlen input))
    (⟨input, fresh, 0⟩ : Mem)
  simp only [hres, hinput]
  have hdrop : fresh.drop (strlen input)
      = [fresh.getD (strlen input) 0] := by
    have hlt : strlen input < fresh.length := by omega
    rw [List.drop_eq_getElem_cons hlt]
    have : fresh.drop (strlen input + 1) = [] := by
      have : fresh.length = strlen input + 1 := hbuf
      rw [← this, List.drop_length]
    rw [this, List.getD_eq_getElem fresh 0 hlt]
  rw [hdrop, map_range_eq_reverse_payload]
  have hlenrev : ((payload input).reverse).length = strlen input := by
    rw [List.length_reverse]; rfl
  rw [List.set_append, hlenrev]
  simp

/-- Every byte of the payload is nonzero. -/
theorem payload_ne_zero (input : List Nat) :
    ∀ x ∈ payload input, x ≠ 0 := by
  intro x hx
  have := List.mem_takeWhile_imp hx
  simpa using this

/-- `takeWhile` passes over a block whose elements all satisfy the
predicate. -/
theorem takeWhile_append_all (p : Nat → Bool) (A B : List Nat)
    (h : ∀ x ∈ A, p x) :
    (A ++ B).takeWhile p = A ++ B.takeWhile p := by
  induction A with
  | nil => simp
  | cons a A ih =>
      have ha : p a := h a (List.mem_cons_self a A)
      simp only [List.cons_append, List.takeWhile_cons, ha, if_true]
      rw [ih fun x hx => h x (List.mem_cons_of_mem a hx)]

/-- The payload of the returned buffer is the reversed payload of the
input: the appended terminator does not extend it. -/
theorem payload_of_output (input : List Nat) :
    payload ((payload input).reverse ++ [0]) = (payload input).reverse := by
  unfold payload
  rw [takeWhile_append_all]
  · simp [List.takeWhile_cons]
  · intro x hx
    have hx' : x ∈ payload input := List.mem_reverse.mp hx
    have := payload_ne_zero input x hx'
    simpa using this

/-- `strlen` of a buffer is the length of its payload. -/
theorem strlen_eq_payload_length (buf : List Nat) :
    strlen buf = (payload buf).length := rfl

/-- `strlen` of the returned buffer equals `strlen` of the input. -/
theorem strlen_of_output (input : List Nat) :
    strlen ((payload input).reverse ++ [0]) = strlen input := by
  rw [strlen_eq_payload_length, payload_of_output, List.length_reverse]
  rfl

/-- A block of nonzero bytes followed by a NUL is its own payload. -/
theorem payload_append_zero (A : List Nat) (h : ∀ x ∈ A, x ≠ 0) :
    payload (A ++ [0]) = A := by
  unfold payload
  rw [takeWhile_append_all _ A [0] (by intro x hx; simpa using h x hx)]
  simp [List.takeWhile_cons]

/-! ### The claims -/

/-- C1: for every valid NUL-terminated input of payload length `N`, the
buffer returned by `tee_secure_process` satisfies
`output[i] = input[N - 1 - i]` for every `i` in `[0, N)`. -/
theorem C1_output_is_pointwise_reverse (input fresh : List Nat) (i : Nat)
    (hvalid : (0 : Nat) ∈ input)
    (halloc : fresh.length = strlen input + 1)
    (hi : i < strlen input) :
    ((tee_secure_process (some fresh) input).out).getD i 0
      = input.getD (strlen input - 1 - i) 0 := by
  rw [process_ok input fresh halloc]
  simp only [CResult.out]
  rw [← map_range_eq_reverse_payload]
  have hlt : i < ((List.range (strlen input)).map
      (fun i => input.getD (strlen input - 1 - i) 0)).length := by
    simpa using hi
  have hlt' : i < ((List.range (strlen input)).map
      (fun i => input.getD (strlen input - 1 - i) 0) ++ [0]).length := by
    simp; omega
  rw [List.getD_eq_getElem _ 0 hlt', List.getElem_append_left hlt,
    List.getElem_map, List.getElem_range]

/-- Witness for C1 at the concrete input "hello" with junk-filled fresh
buffer: output byte 1 equals input byte 3. -/
theorem C1_output_is_pointwise_reverse_witness :
    (0 : Nat) ∈ ([104, 101, 108, 108, 111, 0] : List Nat)
      ∧ ([7, 7, 7, 7, 7, 7] : List Nat).length = strlen [104, 101, 108, 108, 111, 0] + 1
      ∧ 1 < strlen [104, 101, 108, 108, 111, 0]
      ∧ ((tee_secure_process (some [7, 7, 7, 7, 7, 7]) [104, 101, 108, 108, 111, 0]).out).getD 1 0
          = ([104, 101, 108, 108, 111, 0] : List Nat).getD
              (strlen [104, 101, 108, 108, 111, 0] - 1 - 1) 0 :=
  ⟨by decide, by decide, by decide,
    C1_output_is_pointwise_reverse [104, 101, 108, 108, 111, 0] [7, 7, 7, 7, 7, 7] 1
      (by decide) (by decide) (by decide)⟩

/-- C2: the payload length of the output equals the payload length of the
input. -/
theorem C2_length_preserved (input fresh : List Nat)
    (hvalid : (0 : Nat) ∈ input)
    (halloc : fresh.length = strlen input + 1) :
    strlen ((tee_secure_process (some fresh) input).out) = strlen input := by
  rw [process_ok input fresh halloc]
  simp only [CResult.out]
  exact strlen_of_output input

/-- Witness for C2 at the concrete input "hello". -/
theorem C2_length_preserved_witness :
    (0 : Nat) ∈ ([104, 101, 108, 108, 111, 0] : List Nat)
      ∧ ([7, 7, 7, 7, 7, 7] : List Nat).length = strlen [104, 101, 108, 108, 111, 0] + 1
      ∧ strlen ((tee_secure_process (some [7, 7, 7, 7, 7, 7]) [104, 101, 108, 108, 111, 0]).out)
          = strlen [104, 101, 108, 108, 111, 0] :=
  ⟨by decide, by decide,
    C2_length_preserved [104, 101, 108, 108, 111, 0] [7, 7, 7, 7, 7, 7] (by decide) (by decide)⟩

/-- C3: involution.  Processing a valid input twice (each call with a
successful allocation of the requested size) yields a buffer whose
payload is bytewise equal to the payload of the original input. -/
theorem C3_involution (input fresh₁ fresh₂ : List Nat)
    (hvalid : (0 : Nat) ∈ input)
    (h1 : fresh₁.length = strlen input + 1)
    (h2 : fresh₂.length = strlen ((tee_secure_process (some fresh₁) input).out) + 1) :
    payload ((tee_secure_process (some fresh₂)
        ((tee_secure_process (some fresh₁) input).out)).out)
      = payload input := by
  rw [process_ok input fresh₁ h1] at h2 ⊢
  simp only [CResult.out] at h2 ⊢
  rw [process_ok _ fresh₂ h2]
  simp only [CResult.out]
  rw [payload_of_output input, List.reverse_reverse]
  exact payload_append_zero (payload input) (payload_ne_zero input)

/-- Witness for C3 at the concrete input "ab" (`[97, 98, 0]`). -/
theorem C3_involution_witness :
    (0 : Nat) ∈ ([97, 98, 0] : List Nat)
      ∧ ([5, 5, 5] : List Nat).length = strlen [97, 98, 0] + 1
      ∧ ([6, 6, 6] : List Nat).length
          = strlen ((tee_secure_process (some [5, 5, 5]) [97, 98, 0]).out) + 1
      ∧ payload ((tee_secure_process (some [6, 6, 6])
            ((tee_secure_process (some [5, 5, 5]) [97, 98, 0]).out)).out)
          = payload [97, 98, 0] :=
  ⟨by decide, by decide, by decide,
    C3_involution [97, 98, 0] [5, 5, 5] [6, 6, 6] (by decide) (by decide) (by decide)⟩

/-- C4: what the code actually does on allocation failure.  The source
never checks the result of `malloc`; when allocation fails it stores
through the null pointer (lines 8 and 10) instead of signaling an
allocation error to the caller.  This theorem evaluates the embedded code
at the failing input "hello" with `malloc` returning `NULL`. -/
theorem C4_alloc_failure_dereferences_null :
    tee_secure_process none [104, 101, 108, 108, 111, 0]
      = CResult.nullDeref [104, 101, 108, 108, 111, 0] := rfl

/-- C5: the call never modifies the input buffer: after any call
(successful allocation or not) the input is bytewise equal to its value
before the call.  The embedding carries the input buffer through the loop
state, so this is a theorem about the loop, not a modelling assumption. -/
theorem C5_input_unmodified (alloc : Option (List Nat)) (input : List Nat) :
    (tee_secure_process alloc input).inputAfter = input := by
  cases alloc with
  | none => rfl
  | some fresh =>
      unfold tee_secure_process copyLoop
      simp only [CResult.inputAfter]
      exact foldl_copyIter_input _ _ _

/-- C6: the empty input (payload length 0) yields a normal return whose
buffer is the one-byte buffer `[0]`: an owned, zero-length payload with
its terminator, not a null or absent value. -/
theorem C6_empty_input_empty_output (input fresh : List Nat)
    (hvalid : (0 : Nat) ∈ input) (hempty : strlen input = 0)
    (halloc : fresh.length = strlen input + 1) :
    tee_secure_process (some fresh) input = CResult.ok [0] input
      ∧ payload ((tee_secure_process (some fresh) input).out) = [] := by
  have h := process_ok input fresh halloc
  have hpay : payload input = [] := by
    have hl : (payload input).length = 0 := by
      rw [← strlen_eq_payload_length]; exact hempty
    exact List.length_eq_zero.mp hl
  constructor
  · rw [h, hpay]
    simp
  · rw [h]
    simp only [CResult.out]
    rw [hpay]
    simp [payload, List.takeWhile_cons]

/-- Witness for C6 at the concrete empty input `[0]`. -/
theorem C6_empty_input_empty_output_witness :
    (0 : Nat) ∈ ([0] : List Nat)
      ∧ strlen [0] = 0
      ∧ ([9] : List Nat).length = strlen [0] + 1
      ∧ (tee_secure_process (some [9]) [0] = CResult.ok [0] [0]
          ∧ payload ((tee_secure_process (some [9]) [0]).out) = []) :=
  ⟨by decide, by decide, by decide,
    C6_empty_input_empty_output [0] [9] (by decide) (by decide) (by decide)⟩

/-- C7: the output buffer carries a fresh NUL terminator at position `N`,
immediately after the last payload byte; the buffer has exactly `N + 1`
bytes. -/
theorem C7_fresh_terminator (input fresh : List Nat)
    (hvalid : (0 : Nat) ∈ input)
    (halloc : fresh.length = strlen input + 1) :
    ((tee_secure_process (some fresh) input).out).getD (strlen input) 0 = 0
      ∧ ((tee_secure_process (some fresh) input).out).length = strlen input + 1 := by
  rw [process_ok input fresh halloc]
  simp only [CResult.out]
  have hl : ((payload input).reverse).length = strlen input := by
    rw [List.length_reverse]; rfl
  constructor
  · have hlt : strlen input < ((payload input).reverse ++ [0]).length := by
      simp [hl]
    rw [List.getD_eq_getElem _ 0 hlt, List.getElem_append_right (le_of_eq hl)]
    simp [hl]
  · simp [hl]

/-- Witness for C7 at the concrete input "hello". -/
theorem C7_fresh_terminator_witness :
    (0 : Nat) ∈ ([104, 101, 108, 108, 111, 0] : List Nat)
      ∧ ([7, 7, 7, 7, 7, 7] : List Nat).length = strlen [104, 101, 108, 108, 111, 0] + 1
      ∧ (((tee_secure_process (some [7, 7, 7, 7, 7, 7]) [104, 101, 108, 108, 111, 0]).out).getD
            (strlen [104, 101, 108, 108, 111, 0]) 0 = 0
          ∧ ((tee_secure_process (some [7, 7, 7, 7, 7, 7]) [104, 101, 108, 108, 111, 0]).out).length
              = strlen [104, 101, 108, 108, 111, 0] + 1) :=
  ⟨by decide, by decide,
    C7_fresh_terminator [104, 101, 108, 108, 111, 0] [7, 7, 7, 7, 7, 7] (by decide) (by decide)⟩

/-- C8: the payload length is the number of code units before the first
NUL, only the prefix before the first NUL is reversed and returned (so
for a buffer with an embedded NUL the bytes after it are ignored), and
the terminator is never reversed into the interior of the output: every
output byte before position `N` is nonzero. -/
theorem C8_only_prefix_before_first_nul (input fresh : List Nat)
    (hvalid : (0 : Nat) ∈ input)
    (halloc : fresh.length = strlen input + 1) :
    (tee_secure_process (some fresh) input).out
        = (input.takeWhile (fun b => b != 0)).reverse ++ [0]
      ∧ ∀ i, i < strlen input →
          ((tee_secure_process (some fresh) input).out).getD i 0 ≠ 0 := by
  rw [process_ok input fresh halloc]
  simp only [CResult.out]
  refine ⟨rfl, ?_⟩
  intro i hi
  have h1 : i < ((payload input).reverse).length := by
    rw [List.length_reverse]
    exact hi
  have h2 : i < ((payload input).reverse ++ [0]).length := by
    simp at h1 ⊢
    omega
  rw [List.getD_eq_getElem _ 0 h2, List.getElem_append_left h1]
  exact payload_ne_zero input _ (List.mem_reverse.mp (List.getElem_mem h1))

/-- Witness for C8 at the concrete input `[1, 0, 2, 0]`, which carries an
embedded NUL: only the one-byte prefix `[1]` is reversed and returned. -/
theorem C8_only_prefix_before_first_nul_witness :
    (0 : Nat) ∈ ([1, 0, 2, 0] : List Nat)
      ∧ ([8, 8] : List Nat).length = strlen [1, 0, 2, 0] + 1
      ∧ ((tee_secure_process (some [8, 8]) [1, 0, 2, 0]).out
            = (([1, 0, 2, 0] : List Nat).takeWhile (fun b => b != 0)).reverse ++ [0]
          ∧ ∀ i, i < strlen [1, 0, 2, 0] →
              ((tee_secure_process (some [8, 8]) [1, 0, 2, 0]).out).getD i 0 ≠ 0) :=
  ⟨by decide, by decide,
    C8_only_prefix_before_first_nul [1, 0, 2, 0] [8, 8] (by decide) (by decide)⟩

/-- C9: determinism.  Two calls on inputs of equal byte content return
bytewise equal buffers, whatever the (uninitialized) contents of the two
freshly allocated buffers: the output depends only on the input. -/
theorem C9_deterministic (input fresh₁ fresh₂ : List Nat)
    (hvalid : (0 : Nat) ∈ input)
    (h1 : fresh₁.length = strlen input + 1)
    (h2 : fresh₂.length = strlen input + 1) :
    (tee_secure_process (some fresh₁) input).out
      = (tee_secure_process (some fresh₂) input).out := by
  rw [process_ok input fresh₁ h1, process_ok input fresh₂ h2]

/-- Witness for C9 at the concrete input "ab" with two fresh buffers of
different junk contents. -/
theorem C9_deterministic_witness :
    (0 : Nat) ∈ ([97, 98, 0] : List Nat)
      ∧ ([5, 5, 5] : List Nat).length = strlen [97, 98, 0] + 1
      ∧ ([1, 2, 3] : List Nat).length = strlen [97, 98, 0] + 1
      ∧ (tee_secure_process (some [5, 5, 5]) [97, 98, 0]).out
          = (tee_secure_process (some [1, 2, 3]) [97, 98, 0]).out :=
  ⟨by decide, by decide, by decide,
    C9_deterministic [97, 98, 0] [5, 5, 5] [1, 2, 3] (by decide) (by decide) (by decide)⟩

/-- C10: termination and bounded work.  The copy loop performs exactly
`N` iterations for payload length `N`, and on a successful allocation the
call reaches a normal return (the embedding is a total function, so every
valid finite input terminates). -/
theorem C10_loop_runs_exactly_N_iterations (input fresh : List Nat)
    (hvalid : (0 : Nat) ∈ input)
    (halloc : fresh.length = strlen input + 1) :
    (copyLoop (strlen input) { input := input, result := fresh, iters := 0 }).iters
        = strlen input
      ∧ ∃ out, tee_secure_process (some fresh) input = CResult.ok out input := by
  constructor
  · unfold copyLoop
    rw [foldl_copyIter_iters]
    simp
  · exact ⟨_, process_ok input fresh halloc⟩

/-- Witness for C10 at the concrete input "hello". -/
theorem C10_loop_runs_exactly_N_iterations_witness :
    (0 : Nat) ∈ ([104, 101, 108, 108, 111, 0] : List Nat)
      ∧ ([7, 7, 7, 7, 7, 7] : List Nat).length = strlen [104, 101, 108, 108, 111, 0] + 1
      ∧ ((copyLoop (strlen [104, 101, 108, 108, 111, 0])
            { input := [104, 101, 108, 108, 111, 0], result := [7, 7, 7, 7, 7, 7], iters := 0 }).iters
          = strlen [104, 101, 108, 108, 111, 0]
        ∧ ∃ out, tee_secure_process (some [7, 7, 7, 7, 7, 7]) [104, 101, 108, 108, 111, 0]
            = CResult.ok out [104, 101, 108, 108, 111, 0]) :=
  ⟨by decide, by decide,
    C10_loop_runs_exactly_N_iterations [104, 101, 108, 108, 111, 0] [7, 7, 7, 7, 7, 7]
      (by decide) (by decide)⟩

end TeeSecure
